import Mathlib

/-!
Verification of the worker-side TCP listener core
(`source/server/active_tcp_listener.h`): connection admission, the atomic
per-listener connection counter, per-filter-chain connection groups,
deferred destruction and cross-worker balancing.

The header defines `ActiveTcpListener`, `ActiveConnections` (one group of
connections per filter chain) and `ActiveTcpConnection` (the wrapper for one
accepted connection).  The inline method bodies
(`listenerConnectionLimitReached`, `incNumConnections`, `decNumConnections`,
`numConnections`, `ActiveTcpConnection::onEvent`, the watermark callbacks)
are embedded directly from the source; the out-of-line bodies (`onAccept`,
`newConnection`, `removeConnection`, `getOrCreateActiveConnections`,
`deferredRemoveFilterChains`, `updateListenerConfig`, the balancing pick)
are not part of the repository snapshot and are modelled from the spec, as
marked on each definition.

Object identities (filter chains, groups, connection wrappers) are modelled
as natural numbers: the C++ code keys `connections_by_context_` by the
`const Network::FilterChain*` pointer, i.e. by object identity.
-/

namespace Envoy
namespace Server

/-- The modulus of the `std::atomic<uint64_t>` counter
`num_listener_connections_`. -/
def U64MOD : Nat := 2 ^ 64

/-- Wrapping increment of a `uint64_t` value (C++ prefix `++`). -/
def incWrap (n : Nat) : Nat := (n + 1) % U64MOD

/-- Wrapping decrement of a `uint64_t` value (C++ prefix `--`). -/
def decWrap (n : Nat) : Nat := (n + (U64MOD - 1)) % U64MOD

/-- Modelled from the spec: the open-connection limiter exposed by the
listener configuration (`config_->openConnections()`), offering
`canCreate`, `inc` and `dec` against a connection-count ceiling.  The
limiter implementation is outside this repository (spec section 6). -/
structure OpenConnections where
  count : Nat
  limit : Nat
deriving Repr, DecidableEq

/-- Modelled from the spec: `canCreate()` answers whether the count is still
below the configured ceiling. -/
def OpenConnections.canCreate (oc : OpenConnections) : Bool :=
  decide (oc.count < oc.limit)

/-- Modelled from the spec: `inc()` on the external limiter. -/
def OpenConnections.inc (oc : OpenConnections) : OpenConnections :=
  { oc with count := oc.count + 1 }

/-- Modelled from the spec: `dec()` on the external limiter. -/
def OpenConnections.dec (oc : OpenConnections) : OpenConnections :=
  { oc with count := oc.count - 1 }

/-- Embedding of `ActiveConnections`: the group of active connections
attached to one filter chain.  `gid` is the identity of the group object,
`chain` the identity of the `const Network::FilterChain*` it was created
for (`filter_chain_`), and `connections` the list of owned wrapper
identities (`connections_`). -/
structure ActiveConnections where
  gid : Nat
  chain : Nat
  connections : List Nat
deriving Repr, DecidableEq

/-- Embedding of the `ActiveTcpListener` state together with the state of
the dispatcher's deferred-deletion queue, which the listener's lifecycle
behaviour depends on.

Fields from the source: `config` is `config_->openConnections()`,
`numListenerConnections` is `num_listener_connections_`, `groups` is
`connections_by_context_` (an identity-keyed map, held here as a list of
entries).  Fields modelling the environment: `nextGid` and `nextWid`
allocate fresh object identities for groups and wrappers; the
`deferredConnections` and `deferredGroups` lists are the dispatcher's
deferred-deletion queue (objects handed to `deferredDelete`, destructor not
yet run); `destroyedConnections` and `destroyedGroups` record the
identities whose destructor has run, making destruction observable. -/
structure ListenerState where
  config : OpenConnections
  numListenerConnections : Nat
  groups : List ActiveConnections
  nextGid : Nat
  nextWid : Nat
  deferredConnections : List Nat
  deferredGroups : List ActiveConnections
  destroyedConnections : List Nat
  destroyedGroups : List Nat
deriving Repr, DecidableEq

/-- Embedded from the source:
`bool listenerConnectionLimitReached() const { return
!config_->openConnections().canCreate(); }`. -/
def listenerConnectionLimitReached (s : ListenerState) : Bool :=
  !(s.config.canCreate)

/-- Embedded from the source:
`uint64_t numConnections() const { return num_listener_connections_; }`. -/
def numConnections (s : ListenerState) : Nat :=
  s.numListenerConnections

/-- Embedded from the source: `incNumConnections` increments the atomic
counter and calls `config_->openConnections().inc()`. -/
def incNumConnections (s : ListenerState) : ListenerState :=
  { s with numListenerConnections := incWrap s.numListenerConnections,
           config := s.config.inc }

/-- Embedded from the source: `decNumConnections` asserts the counter is
positive, decrements the atomic counter and calls
`config_->openConnections().dec()`. -/
def decNumConnections (s : ListenerState) : ListenerState :=
  { s with numListenerConnections := decWrap s.numListenerConnections,
           config := s.config.dec }

/-- The condition of the `ASSERT(num_listener_connections_ > 0)` guarding
the decrement in `decNumConnections`. -/
def decNumConnectionsAssert (s : ListenerState) : Prop :=
  0 < s.numListenerConnections

/-- All wrapper identities linked across a list of groups, in group order. -/
def flatLinked : List ActiveConnections → List Nat
  | [] => []
  | g :: gs => g.connections ++ flatLinked gs

/-- All wrapper identities currently linked across the listener's groups. -/
def allLinked (s : ListenerState) : List Nat :=
  flatLinked s.groups

/-- The number of wrappers currently linked across all of the listener's
groups (the sum of all group sizes). -/
def totalLinked (s : ListenerState) : Nat :=
  (allLinked s).length

/-- Whether wrapper `w` is currently linked in some group of the listener. -/
def linked (s : ListenerState) (w : Nat) : Bool :=
  (allLinked s).contains w

/-- Detach wrapper `w` from every group's list (in the source the wrapper is
a `LinkedObject` and `removeFromList` unlinks it in O(1) from the one list
holding it). -/
def detachAll (gs : List ActiveConnections) (w : Nat) : List ActiveConnections :=
  gs.map (fun g => { g with connections := g.connections.filter (fun x => x != w) })

/-- Modelled from the spec: `removeConnection(connection)` detaches the
wrapper from its group's list and schedules it for deferred destruction —
it never synchronously destroys the wrapper (spec section 4.1).  The body
of `ActiveTcpListener::removeConnection` is declared in the header but
defined out of line, outside this snapshot. -/
def removeConnection (s : ListenerState) (w : Nat) : ListenerState :=
  if linked s w then
    { s with groups := detachAll s.groups w,
             deferredConnections := s.deferredConnections ++ [w] }
  else s

/-- Embedding of `Network::ConnectionEvent`. -/
inductive ConnectionEvent where
  | Connected
  | RemoteClose
  | LocalClose
deriving Repr, DecidableEq

/-- Embedded from the source: `ActiveTcpConnection::onEvent` calls
`active_connections_.listener_.removeConnection(*this)` exactly when the
event is `LocalClose` or `RemoteClose`, and does nothing otherwise. -/
def onEvent (s : ListenerState) (w : Nat) (e : ConnectionEvent) : ListenerState :=
  if e = ConnectionEvent.LocalClose ∨ e = ConnectionEvent.RemoteClose then
    removeConnection s w
  else s

/-- Embedded from the source:
`void onAboveWriteBufferHighWatermark() override {}` — an empty body. -/
def onAboveWriteBufferHighWatermark (s : ListenerState) : ListenerState := s

/-- Embedded from the source:
`void onBelowWriteBufferLowWatermark() override {}` — an empty body. -/
def onBelowWriteBufferLowWatermark (s : ListenerState) : ListenerState := s

/-- Modelled from the spec: the wrapper's destructor runs when the
dispatcher drains its deferred-deletion queue; per spec section 3 the
counter is decremented exactly once per connection removal, so the
destructor calls `decNumConnections` on the owning listener and the
destruction becomes observable. -/
def destroyConnection (s : ListenerState) (w : Nat) : ListenerState :=
  let s1 := decNumConnections s
  { s1 with destroyedConnections := s1.destroyedConnections ++ [w] }

/-- Modelled from the spec: the group's destructor, when finally run, takes
ownership-destruction of all still-linked wrappers with it (spec section
4.2). -/
def destroyGroup (s : ListenerState) (g : ActiveConnections) : ListenerState :=
  let s1 := g.connections.foldl destroyConnection s
  { s1 with destroyedGroups := s1.destroyedGroups ++ [g.gid] }

/-- Modelled from the spec: the dispatcher's deferred-deletion drain
(spec section 6): destruction of deferred connections and groups happens
after the callback frame that scheduled them has returned, at the end of
the event-loop tick. -/
def clearDeferredDeleteList (s : ListenerState) : ListenerState :=
  let s1 := s.deferredConnections.foldl destroyConnection s
  let s2 := s1.deferredGroups.foldl destroyGroup s1
  { s2 with deferredConnections := [], deferredGroups := [] }

/-- Lookup in the identity-keyed map `connections_by_context_`: the entry
whose key (the filter-chain identity) equals `chain`, if any. -/
def findGroup : List ActiveConnections → Nat → Option ActiveConnections
  | [], _ => none
  | g :: gs, chain => if g.chain = chain then some g else findGroup gs chain

/-- Insertion of a fresh, empty group keyed by the filter-chain identity
`chain` into the map (the creation half of `getOrCreateActiveConnections`). -/
def insertGroup (s : ListenerState) (chain : Nat) : ListenerState :=
  { s with
      groups := s.groups ++
        [{ gid := s.nextGid, chain := chain, connections := [] }],
      nextGid := s.nextGid + 1 }

/-- Modelled from the spec: `getOrCreateActiveConnections(filter_chain)`
returns the existing group for that filter-chain identity or creates and
inserts one keyed by the identity (spec section 4.1); the map
`connections_by_context_` is keyed by the filter-chain pointer.  Returns
the updated state and the identity of the returned group object. -/
def getOrCreateActiveConnections (s : ListenerState) (chain : Nat) :
    ListenerState × Nat :=
  match findGroup s.groups chain with
  | some g => (s, g.gid)
  | none => (insertGroup s chain, s.nextGid)

/-- Link a freshly constructed wrapper `w` into the group whose identity is
`t` (the wrapper's constructor links it into that group's list). -/
def linkConnection : List ActiveConnections → Nat → Nat → List ActiveConnections
  | [], _, _ => []
  | g :: gs, t, w =>
      if g.gid = t then { g with connections := g.connections ++ [w] } :: gs
      else g :: linkConnection gs t w

/-- Modelled from the spec: `newConnection` resolves the filter chain
(identity passed in by the external resolver), calls
`getOrCreateActiveConnections` and constructs a wrapper linked into that
group's list (spec section 4.1). -/
def newConnection (s : ListenerState) (chain : Nat) : ListenerState :=
  let p := getOrCreateActiveConnections s chain
  { p.1 with groups := linkConnection p.1.groups p.2 p.1.nextWid,
             nextWid := p.1.nextWid + 1 }

/-- Embedding of `Network::TcpListenerCallbacks::RejectCause`. -/
inductive RejectCause where
  | GlobalCxLimit
  | OverloadAction
deriving Repr, DecidableEq

/-- Result of processing one accepted socket: the listener state afterwards
and the list of `onReject` invocations made for that socket. -/
structure AcceptResult where
  state : ListenerState
  rejections : List RejectCause
deriving Repr, DecidableEq

/-- Modelled from the spec: `onAccept(socket)` checks
`listenerConnectionLimitReached()`; if exceeded it calls `onReject` with an
overload cause and releases the socket, creating no state; otherwise the
socket is admitted, the counter incremented exactly once by the handler
that instantiates the connection, and `newConnection` links a wrapper
(spec sections 4.1 and 7). -/
def onAccept (s : ListenerState) (chain : Nat) : AcceptResult :=
  if listenerConnectionLimitReached s then
    { state := s, rejections := [RejectCause.OverloadAction] }
  else
    { state := newConnection (incNumConnections s) chain, rejections := [] }

/-- Modelled from the spec: `deferredRemoveFilterChains(draining_chains)`
moves each group whose filter chain is listed out of
`connections_by_context_` and schedules it for deferred destruction,
taking any remaining member connections with it; it returns before any
destruction runs (spec section 4.1). -/
def deferredRemoveFilterChains (s : ListenerState) (chains : List Nat) :
    ListenerState :=
  { s with
      groups := s.groups.filter (fun g => !(chains.contains g.chain)),
      deferredGroups :=
        s.deferredGroups ++ s.groups.filter (fun g => chains.contains g.chain) }

/-- Modelled from the spec: `updateListenerConfig(config)` swaps the
configuration reference used for future admission decisions and touches
nothing else (spec section 4.1). -/
def updateListenerConfig (s : ListenerState) (c : OpenConnections) : ListenerState :=
  { s with config := c }

/-- Embedding of a sibling `Network::BalancedConnectionHandler` as seen by
the balancing query: its identity, its reported `numConnections()` and
whether it is already past its own limit. -/
structure BalancedHandler where
  hid : Nat
  numConnections : Nat
  limitReached : Bool
deriving Repr, DecidableEq

/-- Modelled from the spec: `getBalancedHandlerByAddress` queries the
sibling handlers bound to the same address and chooses the one reporting
the lowest `numConnections()` among those not already overloaded; the
tie-break is an arbitrary stable order (spec section 4.1). -/
def getBalancedHandlerByAddress (hs : List BalancedHandler) :
    Option BalancedHandler :=
  match hs.filter (fun h => !h.limitReached) with
  | [] => none
  | h :: rest =>
      some (rest.foldl
        (fun b h2 => if h2.numConnections < b.numConnections then h2 else b) h)

/-- Modelled from the spec: the hand-off (`post`) transfers the socket to
the chosen handler, which increments its own connection counter upon
instantiating the connection; every other handler is untouched. -/
def handOff (hs : List BalancedHandler) (t : Nat) : List BalancedHandler :=
  hs.map (fun h =>
    if h.hid = t then { h with numConnections := incWrap h.numConnections } else h)

/-- The accept/close events delivered to one listener (spec section 8):
`accept` carries the filter-chain identity the external resolver selects
for the socket, `close` a terminal connection event on wrapper `w`. -/
inductive Ev where
  | accept (chain : Nat)
  | close (w : Nat)
deriving Repr, DecidableEq

/-- Dispatch one event to the listener. -/
def stepEvent (s : ListenerState) : Ev → ListenerState
  | Ev.accept chain => (onAccept s chain).state
  | Ev.close w => onEvent s w ConnectionEvent.LocalClose

/-- One event-loop tick: the callback runs, then the dispatcher drains its
deferred-deletion queue; the state afterwards is a quiescent point. -/
def processEvent (s : ListenerState) (e : Ev) : ListenerState :=
  clearDeferredDeleteList (stepEvent s e)

/-- Process a whole sequence of accept/close events. -/
def run (s : ListenerState) (es : List Ev) : ListenerState :=
  es.foldl processEvent s

/-- A freshly created listener with the given connection-limit ceiling. -/
def initListener (limit : Nat) : ListenerState :=
  { config := { count := 0, limit := limit },
    numListenerConnections := 0, groups := [], nextGid := 0, nextWid := 0,
    deferredConnections := [], deferredGroups := [],
    destroyedConnections := [], destroyedGroups := [] }

/-- Well-formedness of the group map: group identities are pairwise
distinct and below the allocator's next identity. -/
structure WFGroups (s : ListenerState) : Prop where
  gidNodup : (s.groups.map (fun g => g.gid)).Nodup
  gidFresh : ∀ g ∈ s.groups, g.gid < s.nextGid

/-- The inductive invariant of the accept/close state machine: the atomic
counter and the external limiter count both equal the number of linked
wrappers, the limiter count respects its ceiling, the ceiling fits in 64
bits, the deferred-deletion queue is drained, linked wrapper identities
are pairwise distinct and below the allocator's next identity. -/
structure Inv (s : ListenerState) : Prop where
  counterEq : s.numListenerConnections = totalLinked s
  limiterEq : s.config.count = totalLinked s
  limiterLe : s.config.count ≤ s.config.limit
  limitLt : s.config.limit < U64MOD
  defConnNil : s.deferredConnections = []
  defGroupNil : s.deferredGroups = []
  linkedNodup : (allLinked s).Nodup
  linkedFresh : ∀ w ∈ allLinked s, w < s.nextWid

/-! ### Arithmetic helpers for the 64-bit counter -/

lemma U64MOD_pos : 0 < U64MOD := by
  unfold U64MOD
  positivity

lemma incWrap_of_lt {n : Nat} (h : n + 1 < U64MOD) : incWrap n = n + 1 :=
  Nat.mod_eq_of_lt h

lemma decWrap_of_pos {n : Nat} (h0 : 0 < n) (hlt : n < U64MOD) :
    decWrap n = n - 1 := by
  unfold decWrap
  have he : n + (U64MOD - 1) = (n - 1) + U64MOD := by
    have := U64MOD_pos
    omega
  rw [he, Nat.add_mod_right]
  exact Nat.mod_eq_of_lt (by omega)

lemma decWrap_zero : decWrap 0 = U64MOD - 1 := by
  unfold decWrap
  have := U64MOD_pos
  rw [Nat.zero_add]
  exact Nat.mod_eq_of_lt (by omega)

/-! ### List-level helpers for linked wrappers -/

@[simp] lemma flatLinked_nil : flatLinked [] = [] := rfl

@[simp] lemma flatLinked_cons (g : ActiveConnections) (gs : List ActiveConnections) :
    flatLinked (g :: gs) = g.connections ++ flatLinked gs := rfl

lemma flatLinked_append (gs1 gs2 : List ActiveConnections) :
    flatLinked (gs1 ++ gs2) = flatLinked gs1 ++ flatLinked gs2 := by
  induction gs1 with
  | nil => simp
  | cons g gs ih => simp [ih]

lemma mem_flatLinked_of_mem {g : ActiveConnections} {gs : List ActiveConnections}
    (hg : g ∈ gs) {w : Nat} (hw : w ∈ g.connections) : w ∈ flatLinked gs := by
  induction gs with
  | nil => cases hg
  | cons g2 gs ih =>
    rcases List.mem_cons.mp hg with rfl | hmem
    · exact List.mem_append.mpr (Or.inl hw)
    · exact List.mem_append.mpr (Or.inr (ih hmem))

lemma linked_iff {s : ListenerState} {w : Nat} :
    linked s w = true ↔ w ∈ allLinked s :=
  List.elem_iff

lemma linked_eq_false_iff {s : ListenerState} {w : Nat} :
    linked s w = false ↔ w ∉ allLinked s := by
  rw [← linked_iff]
  cases h : linked s w <;> simp [h]

lemma filter_ne_of_not_mem {w : Nat} {l : List Nat} (h : w ∉ l) :
    l.filter (fun x => x != w) = l := by
  refine List.filter_eq_self.mpr ?_
  intro x hx
  have : x ≠ w := by
    rintro rfl
    exact h hx
  simpa using this

lemma length_filter_ne_of_nodup {w : Nat} {l : List Nat}
    (hn : l.Nodup) (hm : w ∈ l) :
    (l.filter (fun x => x != w)).length = l.length - 1 := by
  induction l with
  | nil => cases hm
  | cons a l ih =>
    rcases List.nodup_cons.mp hn with ⟨hna, hnl⟩
    rcases List.mem_cons.mp hm with rfl | hmem
    · simp [List.filter_cons, filter_ne_of_not_mem hna]
    · have ha : (a != w) = true := by
        simp only [bne_iff_ne, ne_eq]
        rintro rfl
        exact hna hmem
      have hpos : 0 < l.length := List.length_pos_of_mem hmem
      simp only [List.filter_cons, ha, if_pos, List.length_cons, ih hnl hmem]
      omega

/-! ### Field and effect lemmas for the listener operations -/

@[simp] lemma detachAll_nil (w : Nat) : detachAll [] w = [] := rfl

@[simp] lemma detachAll_cons (g : ActiveConnections) (gs : List ActiveConnections)
    (w : Nat) :
    detachAll (g :: gs) w =
      { g with connections := g.connections.filter (fun x => x != w) } ::
        detachAll gs w := rfl

lemma flatLinked_detachAll (gs : List ActiveConnections) (w : Nat) :
    flatLinked (detachAll gs w) = (flatLinked gs).filter (fun x => x != w) := by
  induction gs with
  | nil => rfl
  | cons g gs ih => simp [List.filter_append, ih]

lemma detachAll_map_gid (gs : List ActiveConnections) (w : Nat) :
    (detachAll gs w).map (fun g => g.gid) = gs.map (fun g => g.gid) := by
  induction gs with
  | nil => rfl
  | cons g gs ih => simp [ih]

lemma removeConnection_of_linked {s : ListenerState} {w : Nat}
    (h : linked s w = true) :
    removeConnection s w =
      { s with groups := detachAll s.groups w,
               deferredConnections := s.deferredConnections ++ [w] } := by
  simp [removeConnection, h]

lemma removeConnection_of_not_linked {s : ListenerState} {w : Nat}
    (h : linked s w = false) :
    removeConnection s w = s := by
  simp [removeConnection, h]

lemma linked_removeConnection_self (s : ListenerState) (w : Nat) :
    linked (removeConnection s w) w = false := by
  cases h : linked s w
  · rw [removeConnection_of_not_linked h]
    exact h
  · rw [removeConnection_of_linked h]
    rw [linked_eq_false_iff]
    intro hmem
    have : w ∈ (flatLinked s.groups).filter (fun x => x != w) := by
      simp only [allLinked, flatLinked_detachAll] at hmem
      exact hmem
    rcases List.mem_filter.mp this with ⟨_, hw⟩
    simp at hw

lemma removeConnection_destroyedConnections (s : ListenerState) (w : Nat) :
    (removeConnection s w).destroyedConnections = s.destroyedConnections := by
  cases h : linked s w
  · rw [removeConnection_of_not_linked h]
  · rw [removeConnection_of_linked h]

@[simp] lemma linkConnection_nil (t w : Nat) : linkConnection [] t w = [] := rfl

lemma linkConnection_cons_hit {g : ActiveConnections} {t : Nat}
    (h : g.gid = t) (gs : List ActiveConnections) (w : Nat) :
    linkConnection (g :: gs) t w =
      { g with connections := g.connections ++ [w] } :: gs := by
  simp [linkConnection, h]

lemma linkConnection_cons_miss {g : ActiveConnections} {t : Nat}
    (h : ¬g.gid = t) (gs : List ActiveConnections) (w : Nat) :
    linkConnection (g :: gs) t w = g :: linkConnection gs t w := by
  simp [linkConnection, h]

lemma flatLinked_linkConnection_length {t w : Nat} :
    ∀ {gs : List ActiveConnections}, (∃ g ∈ gs, g.gid = t) →
      (flatLinked (linkConnection gs t w)).length = (flatLinked gs).length + 1 := by
  intro gs hex
  induction gs with
  | nil =>
    rcases hex with ⟨g, hg, _⟩
    cases hg
  | cons g gs ih =>
    by_cases h : g.gid = t
    · rw [linkConnection_cons_hit h]
      simp
      omega
    · rcases hex with ⟨g2, hg2, hgid⟩
      rcases List.mem_cons.mp hg2 with rfl | hmem
      · exact absurd hgid h
      · rw [linkConnection_cons_miss h]
        simp [ih ⟨g2, hmem, hgid⟩]
        omega

lemma mem_flatLinked_linkConnection {t w x : Nat} :
    ∀ {gs : List ActiveConnections}, x ∈ flatLinked (linkConnection gs t w) →
      x ∈ flatLinked gs ∨ x = w := by
  intro gs hx
  induction gs with
  | nil => cases hx
  | cons g gs ih =>
    by_cases h : g.gid = t
    · rw [linkConnection_cons_hit h] at hx
      simp only [flatLinked_cons, List.append_assoc, List.mem_append,
        List.mem_singleton] at hx
      rcases hx with hc | hw | hrest
      · exact Or.inl (by simp [hc])
      · exact Or.inr hw
      · exact Or.inl (by simp [hrest])
    · rw [linkConnection_cons_miss h] at hx
      simp only [flatLinked_cons, List.mem_append] at hx
      rcases hx with hc | hrest
      · exact Or.inl (by simp [hc])
      · rcases ih hrest with hin | hw
        · exact Or.inl (by simp [hin])
        · exact Or.inr hw

lemma nodup_flatLinked_linkConnection {t w : Nat} :
    ∀ {gs : List ActiveConnections}, (flatLinked gs).Nodup →
      w ∉ flatLinked gs → (flatLinked (linkConnection gs t w)).Nodup := by
  intro gs hn hw
  induction gs with
  | nil => simp
  | cons g gs ih =>
    simp only [flatLinked_cons, List.nodup_append] at hn
    rcases hn with ⟨hn1, hn2, hdisj⟩
    simp only [flatLinked_cons, List.mem_append] at hw
    push_neg at hw
    by_cases h : g.gid = t
    · rw [linkConnection_cons_hit h]
      simp only [flatLinked_cons]
      rw [List.nodup_append]
      refine ⟨?_, hn2, ?_⟩
      · rw [List.nodup_append]
        refine ⟨hn1, List.nodup_singleton w, ?_⟩
        intro x hx hxw
        rcases List.mem_singleton.mp hxw with rfl
        exact hw.1 hx
      · intro x hx hx2
        rcases List.mem_append.mp hx with hxg | hxw
        · exact hdisj hxg hx2
        · rcases List.mem_singleton.mp hxw with rfl
          exact hw.2 hx2
    · rw [linkConnection_cons_miss h]
      simp only [flatLinked_cons]
      rw [List.nodup_append]
      refine ⟨hn1, ih hn2 hw.2, ?_⟩
      intro x hx hx2
      rcases mem_flatLinked_linkConnection hx2 with hin | rfl
      · exact hdisj hx hin
      · exact hw.1 hx

/-! ### Effect lemmas for getOrCreateActiveConnections and newConnection -/

@[simp] lemma findGroup_nil (chain : Nat) : findGroup [] chain = none := rfl

lemma findGroup_cons_hit {g : ActiveConnections} {chain : Nat}
    (h : g.chain = chain) (gs : List ActiveConnections) :
    findGroup (g :: gs) chain = some g := by
  simp [findGroup, h]

lemma findGroup_cons_miss {g : ActiveConnections} {chain : Nat}
    (h : ¬g.chain = chain) (gs : List ActiveConnections) :
    findGroup (g :: gs) chain = findGroup gs chain := by
  simp [findGroup, h]

lemma findGroup_append (l1 l2 : List ActiveConnections) (chain : Nat) :
    findGroup (l1 ++ l2) chain = (findGroup l1 chain).or (findGroup l2 chain) := by
  induction l1 with
  | nil => simp
  | cons g gs ih =>
    by_cases h : g.chain = chain
    · simp [findGroup_cons_hit h]
    · simp only [List.cons_append, findGroup_cons_miss h]
      exact ih

lemma findGroup_some (gs : List ActiveConnections) (chain : Nat)
    (g : ActiveConnections) (h : findGroup gs chain = some g) :
    g ∈ gs ∧ g.chain = chain := by
  induction gs with
  | nil => cases h
  | cons g2 gs ih =>
    by_cases h2 : g2.chain = chain
    · rw [findGroup_cons_hit h2] at h
      cases h
      exact ⟨List.mem_cons_self _ _, h2⟩
    · rw [findGroup_cons_miss h2] at h
      obtain ⟨hm, hc⟩ := ih h
      exact ⟨List.mem_cons_of_mem _ hm, hc⟩

lemma findGroup_none (gs : List ActiveConnections) (chain : Nat)
    (h : findGroup gs chain = none) :
    ∀ g ∈ gs, g.chain ≠ chain := by
  induction gs with
  | nil => intro g hg; cases hg
  | cons g2 gs ih =>
    by_cases h2 : g2.chain = chain
    · rw [findGroup_cons_hit h2] at h
      cases h
    · rw [findGroup_cons_miss h2] at h
      intro g hg
      rcases List.mem_cons.mp hg with rfl | hm
      · exact h2
      · exact ih h g hm

lemma getOrCreate_of_found {s : ListenerState} {chain : Nat}
    {g : ActiveConnections} (h : findGroup s.groups chain = some g) :
    getOrCreateActiveConnections s chain = (s, g.gid) := by
  simp [getOrCreateActiveConnections, h]

lemma getOrCreate_of_not_found {s : ListenerState} {chain : Nat}
    (h : findGroup s.groups chain = none) :
    getOrCreateActiveConnections s chain = (insertGroup s chain, s.nextGid) := by
  simp [getOrCreateActiveConnections, h]

lemma getOrCreate_fields (s : ListenerState) (chain : Nat) :
    (getOrCreateActiveConnections s chain).1.config = s.config ∧
    (getOrCreateActiveConnections s chain).1.numListenerConnections =
      s.numListenerConnections ∧
    (getOrCreateActiveConnections s chain).1.nextWid = s.nextWid ∧
    (getOrCreateActiveConnections s chain).1.deferredConnections =
      s.deferredConnections ∧
    (getOrCreateActiveConnections s chain).1.deferredGroups = s.deferredGroups ∧
    (getOrCreateActiveConnections s chain).1.destroyedConnections =
      s.destroyedConnections ∧
    (getOrCreateActiveConnections s chain).1.destroyedGroups =
      s.destroyedGroups := by
  unfold getOrCreateActiveConnections
  cases findGroup s.groups chain <;> simp [insertGroup]

lemma getOrCreate_flatLinked (s : ListenerState) (chain : Nat) :
    flatLinked (getOrCreateActiveConnections s chain).1.groups = allLinked s := by
  unfold getOrCreateActiveConnections allLinked
  cases findGroup s.groups chain <;>
    simp [insertGroup, flatLinked_append]

lemma getOrCreate_gid_mem (s : ListenerState) (chain : Nat) :
    ∃ g ∈ (getOrCreateActiveConnections s chain).1.groups,
      g.gid = (getOrCreateActiveConnections s chain).2 := by
  unfold getOrCreateActiveConnections
  cases h : findGroup s.groups chain with
  | none =>
    simp only [insertGroup]
    exact ⟨{ gid := s.nextGid, chain := chain, connections := [] },
      List.mem_append.mpr (Or.inr (List.mem_singleton.mpr rfl)), rfl⟩
  | some g =>
    exact ⟨g, (findGroup_some s.groups chain g h).1, rfl⟩

lemma newConnection_totalLinked (s : ListenerState) (chain : Nat) :
    totalLinked (newConnection s chain) = totalLinked s + 1 := by
  unfold newConnection totalLinked allLinked
  simp only
  rw [flatLinked_linkConnection_length (getOrCreate_gid_mem s chain)]
  rw [show flatLinked (getOrCreateActiveConnections s chain).1.groups =
        allLinked s from getOrCreate_flatLinked s chain]
  rfl

lemma newConnection_fields (s : ListenerState) (chain : Nat) :
    (newConnection s chain).config = s.config ∧
    (newConnection s chain).numListenerConnections = s.numListenerConnections ∧
    (newConnection s chain).deferredConnections = s.deferredConnections ∧
    (newConnection s chain).deferredGroups = s.deferredGroups ∧
    (newConnection s chain).destroyedConnections = s.destroyedConnections ∧
    (newConnection s chain).destroyedGroups = s.destroyedGroups ∧
    (newConnection s chain).nextWid = s.nextWid + 1 := by
  obtain ⟨h1, h2, h3, h4, h5, h6, h7⟩ := getOrCreate_fields s chain
  unfold newConnection
  simp [h1, h2, h3, h4, h5, h6, h7]

/-! ### Effect lemmas for deferred destruction -/

lemma foldl_destroyConnection_spec :
    ∀ (l : List Nat) (s : ListenerState),
      (l.foldl destroyConnection s).destroyedConnections =
        s.destroyedConnections ++ l ∧
      (l.foldl destroyConnection s).groups = s.groups ∧
      (l.foldl destroyConnection s).nextGid = s.nextGid ∧
      (l.foldl destroyConnection s).nextWid = s.nextWid ∧
      (l.foldl destroyConnection s).deferredConnections =
        s.deferredConnections ∧
      (l.foldl destroyConnection s).deferredGroups = s.deferredGroups ∧
      (l.foldl destroyConnection s).destroyedGroups = s.destroyedGroups := by
  intro l
  induction l with
  | nil => intro s; simp
  | cons a l ih =>
    intro s
    obtain ⟨h1, h2, h3, h4, h5, h6, h7⟩ := ih (destroyConnection s a)
    simp only [List.foldl_cons]
    refine ⟨?_, ?_, ?_, ?_, ?_, ?_, ?_⟩
    · rw [h1]; simp [destroyConnection, decNumConnections]
    · rw [h2]; simp [destroyConnection, decNumConnections]
    · rw [h3]; simp [destroyConnection, decNumConnections]
    · rw [h4]; simp [destroyConnection, decNumConnections]
    · rw [h5]; simp [destroyConnection, decNumConnections]
    · rw [h6]; simp [destroyConnection, decNumConnections]
    · rw [h7]; simp [destroyConnection, decNumConnections]

lemma destroyGroup_spec (s : ListenerState) (g : ActiveConnections) :
    (destroyGroup s g).destroyedConnections =
      s.destroyedConnections ++ g.connections ∧
    (destroyGroup s g).destroyedGroups = s.destroyedGroups ++ [g.gid] ∧
    (destroyGroup s g).groups = s.groups ∧
    (destroyGroup s g).nextGid = s.nextGid ∧
    (destroyGroup s g).nextWid = s.nextWid ∧
    (destroyGroup s g).deferredConnections = s.deferredConnections ∧
    (destroyGroup s g).deferredGroups = s.deferredGroups := by
  obtain ⟨h1, h2, h3, h4, h5, h6, h7⟩ := foldl_destroyConnection_spec g.connections s
  unfold destroyGroup
  simp [h1, h2, h3, h4, h5, h6, h7]

lemma foldl_destroyGroup_spec :
    ∀ (l : List ActiveConnections) (s : ListenerState),
      (l.foldl destroyGroup s).destroyedConnections =
        s.destroyedConnections ++ flatLinked l ∧
      (l.foldl destroyGroup s).destroyedGroups =
        s.destroyedGroups ++ l.map (fun g => g.gid) ∧
      (l.foldl destroyGroup s).groups = s.groups ∧
      (l.foldl destroyGroup s).nextGid = s.nextGid ∧
      (l.foldl destroyGroup s).nextWid = s.nextWid := by
  intro l
  induction l with
  | nil => intro s; simp
  | cons g l ih =>
    intro s
    obtain ⟨h1, h2, h3, h4, h5⟩ := ih (destroyGroup s g)
    obtain ⟨k1, k2, k3, k4, k5, _, _⟩ := destroyGroup_spec s g
    simp only [List.foldl_cons]
    refine ⟨?_, ?_, ?_, ?_, ?_⟩
    · rw [h1, k1]; simp
    · rw [h2, k2]; simp
    · rw [h3, k3]
    · rw [h4, k4]
    · rw [h5, k5]

lemma clearDeferred_destroyed (s : ListenerState) :
    (clearDeferredDeleteList s).destroyedConnections =
      s.destroyedConnections ++ s.deferredConnections ++
        flatLinked s.deferredGroups ∧
    (clearDeferredDeleteList s).destroyedGroups =
      s.destroyedGroups ++ s.deferredGroups.map (fun g => g.gid) ∧
    (clearDeferredDeleteList s).groups = s.groups ∧
    (clearDeferredDeleteList s).nextGid = s.nextGid ∧
    (clearDeferredDeleteList s).nextWid = s.nextWid ∧
    (clearDeferredDeleteList s).deferredConnections = [] ∧
    (clearDeferredDeleteList s).deferredGroups = [] := by
  obtain ⟨h1, h2, h3, h4, h5, h6, h7⟩ :=
    foldl_destroyConnection_spec s.deferredConnections s
  obtain ⟨k1, k2, k3, k4, k5⟩ :=
    foldl_destroyGroup_spec s.deferredGroups
      (s.deferredConnections.foldl destroyConnection s)
  unfold clearDeferredDeleteList
  simp only [h6, k1, k2, k3, k4, k5, h1, h2, h3, h4, h7, List.append_assoc,
    and_true, true_and, and_self]

lemma clearDeferred_of_nil {s : ListenerState}
    (hc : s.deferredConnections = []) (hg : s.deferredGroups = []) :
    clearDeferredDeleteList s = s := by
  cases s with
  | mk config num groups nextGid nextWid defC defG destC destG =>
    simp only at hc hg
    subst hc
    subst hg
    simp [clearDeferredDeleteList]

lemma clearDeferred_singleton {s : ListenerState} {w : Nat}
    (hc : s.deferredConnections = [w]) (hg : s.deferredGroups = []) :
    clearDeferredDeleteList s =
      { s with numListenerConnections := decWrap s.numListenerConnections,
               config := s.config.dec,
               destroyedConnections := s.destroyedConnections ++ [w],
               deferredConnections := [], deferredGroups := [] } := by
  cases s with
  | mk config num groups nextGid nextWid defC defG destC destG =>
    simp only at hc hg
    subst hc
    subst hg
    simp [clearDeferredDeleteList, destroyConnection, decNumConnections]

/-! ### Step characterization of the accept/close state machine -/

lemma newConnection_groups (s : ListenerState) (chain : Nat) :
    (newConnection s chain).groups =
      linkConnection (getOrCreateActiveConnections s chain).1.groups
        (getOrCreateActiveConnections s chain).2
        (getOrCreateActiveConnections s chain).1.nextWid := rfl

lemma onAccept_state_rejected {s : ListenerState} {chain : Nat}
    (h : listenerConnectionLimitReached s = true) :
    (onAccept s chain).state = s := by
  simp [onAccept, h]

lemma onAccept_state_admitted {s : ListenerState} {chain : Nat}
    (h : listenerConnectionLimitReached s = false) :
    (onAccept s chain).state = newConnection (incNumConnections s) chain := by
  simp [onAccept, h]

lemma processEvent_accept_rejected {s : ListenerState} {chain : Nat}
    (hdefC : s.deferredConnections = []) (hdefG : s.deferredGroups = [])
    (h : listenerConnectionLimitReached s = true) :
    processEvent s (Ev.accept chain) = s := by
  simp only [processEvent, stepEvent, onAccept_state_rejected h]
  exact clearDeferred_of_nil hdefC hdefG

lemma processEvent_accept_admitted {s : ListenerState} {chain : Nat}
    (hdefC : s.deferredConnections = []) (hdefG : s.deferredGroups = [])
    (h : listenerConnectionLimitReached s = false) :
    processEvent s (Ev.accept chain) = newConnection (incNumConnections s) chain := by
  simp only [processEvent, stepEvent, onAccept_state_admitted h]
  obtain ⟨_, _, f3, f4, _, _, _⟩ := newConnection_fields (incNumConnections s) chain
  exact clearDeferred_of_nil (by rw [f3]; exact hdefC) (by rw [f4]; exact hdefG)

lemma processEvent_close_not_linked {s : ListenerState} {w : Nat}
    (hdefC : s.deferredConnections = []) (hdefG : s.deferredGroups = [])
    (h : linked s w = false) :
    processEvent s (Ev.close w) = s := by
  simp only [processEvent, stepEvent, onEvent, true_or, if_true]
  rw [removeConnection_of_not_linked h]
  exact clearDeferred_of_nil hdefC hdefG

lemma processEvent_close_linked {s : ListenerState} {w : Nat}
    (hdefC : s.deferredConnections = []) (hdefG : s.deferredGroups = [])
    (h : linked s w = true) :
    processEvent s (Ev.close w) =
      { s with groups := detachAll s.groups w,
               numListenerConnections := decWrap s.numListenerConnections,
               config := s.config.dec,
               destroyedConnections := s.destroyedConnections ++ [w],
               deferredConnections := [], deferredGroups := [] } := by
  simp only [processEvent, stepEvent, onEvent, true_or, if_true]
  rw [removeConnection_of_linked h, hdefC, hdefG]
  rw [clearDeferred_singleton rfl rfl]

/-! ### Preservation of the invariant -/

lemma canCreate_of_not_limitReached {s : ListenerState}
    (h : listenerConnectionLimitReached s = false) :
    s.config.count < s.config.limit := by
  simpa [listenerConnectionLimitReached, OpenConnections.canCreate] using h

lemma Inv.processEvent {s : ListenerState} (hInv : Inv s) (e : Ev) :
    Inv (Server.processEvent s e) := by
  cases e with
  | accept chain =>
    cases h : listenerConnectionLimitReached s with
    | true =>
      rw [processEvent_accept_rejected hInv.defConnNil hInv.defGroupNil h]
      exact hInv
    | false =>
      rw [processEvent_accept_admitted hInv.defConnNil hInv.defGroupNil h]
      obtain ⟨f1, f2, f3, f4, f5, f6, f7⟩ :=
        newConnection_fields (incNumConnections s) chain
      have hcc : s.config.count < s.config.limit := canCreate_of_not_limitReached h
      have hlt : s.numListenerConnections + 1 < U64MOD := by
        have e1 := hInv.counterEq
        have e2 := hInv.limiterEq
        have e3 := hInv.limitLt
        omega
      have htot : totalLinked (newConnection (incNumConnections s) chain) =
          totalLinked s + 1 := by
        rw [newConnection_totalLinked]
        rfl
      have hflat : flatLinked
          (getOrCreateActiveConnections (incNumConnections s) chain).1.groups =
          allLinked s :=
        getOrCreate_flatLinked (incNumConnections s) chain
      have hwid : (getOrCreateActiveConnections (incNumConnections s) chain).1.nextWid
          = s.nextWid :=
        (getOrCreate_fields (incNumConnections s) chain).2.2.1
      refine ⟨?_, ?_, ?_, ?_, ?_, ?_, ?_, ?_⟩
      · rw [f2, htot]
        show incWrap s.numListenerConnections = totalLinked s + 1
        rw [incWrap_of_lt hlt, hInv.counterEq]
      · rw [f1, htot]
        show s.config.count + 1 = totalLinked s + 1
        rw [hInv.limiterEq]
      · rw [f1]
        show s.config.count + 1 ≤ s.config.limit
        omega
      · rw [f1]
        exact hInv.limitLt
      · rw [f3]
        exact hInv.defConnNil
      · rw [f4]
        exact hInv.defGroupNil
      · show (flatLinked (newConnection (incNumConnections s) chain).groups).Nodup
        rw [newConnection_groups]
        apply nodup_flatLinked_linkConnection
        · rw [hflat]
          exact hInv.linkedNodup
        · rw [hflat, hwid]
          intro hmem
          exact absurd (hInv.linkedFresh _ hmem) (lt_irrefl _)
      · intro x hx
        rw [f7]
        show x < s.nextWid + 1
        have hx2 : x ∈ flatLinked (newConnection (incNumConnections s) chain).groups :=
          hx
        rw [newConnection_groups] at hx2
        rcases mem_flatLinked_linkConnection hx2 with hin | heq
        · rw [hflat] at hin
          have := hInv.linkedFresh _ hin
          omega
        · rw [hwid] at heq
          omega
  | close w =>
    cases hl : linked s w with
    | false =>
      rw [processEvent_close_not_linked hInv.defConnNil hInv.defGroupNil hl]
      exact hInv
    | true =>
      rw [processEvent_close_linked hInv.defConnNil hInv.defGroupNil hl]
      have hmem : w ∈ allLinked s := linked_iff.mp hl
      have hpos : 0 < totalLinked s := List.length_pos_of_mem hmem
      have hlt : s.numListenerConnections < U64MOD := by
        have e1 := hInv.counterEq
        have e2 := hInv.limiterEq
        have e3 := hInv.limiterLe
        have e4 := hInv.limitLt
        omega
      have htot : (flatLinked (detachAll s.groups w)).length = totalLinked s - 1 := by
        rw [flatLinked_detachAll]
        exact length_filter_ne_of_nodup hInv.linkedNodup hmem
      refine ⟨?_, ?_, ?_, ?_, rfl, rfl, ?_, ?_⟩
      · show decWrap s.numListenerConnections =
          (flatLinked (detachAll s.groups w)).length
        rw [decWrap_of_pos (by rw [hInv.counterEq]; exact hpos) hlt, htot,
          hInv.counterEq]
      · show s.config.count - 1 = (flatLinked (detachAll s.groups w)).length
        rw [htot, hInv.limiterEq]
      · show s.config.count - 1 ≤ s.config.limit
        have := hInv.limiterLe
        omega
      · show s.config.limit < U64MOD
        exact hInv.limitLt
      · show (flatLinked (detachAll s.groups w)).Nodup
        rw [flatLinked_detachAll]
        exact List.Nodup.filter _ hInv.linkedNodup
      · intro x hx
        have hx2 : x ∈ flatLinked (detachAll s.groups w) := hx
        rw [flatLinked_detachAll] at hx2
        exact hInv.linkedFresh _ (List.mem_filter.mp hx2).1

lemma Inv.run {s : ListenerState} (hInv : Inv s) (es : List Ev) :
    Inv (Server.run s es) := by
  induction es generalizing s with
  | nil => exact hInv
  | cons e es ih => exact ih (hInv.processEvent e)

lemma Inv.init {limit : Nat} (hlim : limit < U64MOD) :
    Inv (initListener limit) := by
  refine ⟨rfl, rfl, ?_, hlim, rfl, rfl, ?_, ?_⟩
  · exact Nat.zero_le _
  · exact List.nodup_nil
  · intro x hx
    cases hx

lemma counter_delta_accept {s : ListenerState} (hInv : Inv s) (chain : Nat)
    (h : listenerConnectionLimitReached s = false) :
    numConnections (processEvent s (Ev.accept chain)) = numConnections s + 1 := by
  rw [processEvent_accept_admitted hInv.defConnNil hInv.defGroupNil h]
  have f2 := (newConnection_fields (incNumConnections s) chain).2.1
  have hcc : s.config.count < s.config.limit := canCreate_of_not_limitReached h
  have hlt : s.numListenerConnections + 1 < U64MOD := by
    have e1 := hInv.counterEq
    have e2 := hInv.limiterEq
    have e3 := hInv.limitLt
    omega
  show (newConnection (incNumConnections s) chain).numListenerConnections =
    s.numListenerConnections + 1
  rw [f2]
  show incWrap s.numListenerConnections = s.numListenerConnections + 1
  exact incWrap_of_lt hlt

lemma totalLinked_processEvent_close {s : ListenerState} {w : Nat}
    (hInv : Inv s) (h : linked s w = true) :
    totalLinked (processEvent s (Ev.close w)) = totalLinked s - 1 := by
  have hmem : w ∈ allLinked s := linked_iff.mp h
  rw [processEvent_close_linked hInv.defConnNil hInv.defGroupNil h]
  show (flatLinked (detachAll s.groups w)).length = totalLinked s - 1
  rw [flatLinked_detachAll]
  exact length_filter_ne_of_nodup hInv.linkedNodup hmem

lemma counter_delta_close {s : ListenerState} (hInv : Inv s) {w : Nat}
    (h : linked s w = true) :
    numConnections (processEvent s (Ev.close w)) + 1 = numConnections s := by
  have hmem : w ∈ allLinked s := linked_iff.mp h
  have hpos : 0 < totalLinked s := List.length_pos_of_mem hmem
  have h2 : Inv (processEvent s (Ev.close w)) := hInv.processEvent (Ev.close w)
  have h3 := h2.counterEq
  have h4 := totalLinked_processEvent_close hInv h
  have h5 := hInv.counterEq
  show (processEvent s (Ev.close w)).numListenerConnections + 1 =
    s.numListenerConnections
  omega

/-! ### Example states used by the witnesses -/

/-- A listener with one group for filter chain 3 holding the single wrapper
0, with the limiter at 1 of 2. -/
def exampleListener : ListenerState :=
  { config := { count := 1, limit := 2 }, numListenerConnections := 1,
    groups := [{ gid := 0, chain := 3, connections := [0] }],
    nextGid := 1, nextWid := 1,
    deferredConnections := [], deferredGroups := [],
    destroyedConnections := [], destroyedGroups := [] }

/-! ### The claims -/

/-- Claim C2: if `listenerConnectionLimitReached()` is true when a socket
arrives at `onAccept`, then `onReject` is invoked exactly once for that
socket with an overload cause, and no wrapper, no group and no other
listener state is created for it (the listener state is left completely
unchanged). -/
theorem onAccept_rejects_when_limit_reached (s : ListenerState) (chain : Nat)
    (h : listenerConnectionLimitReached s = true) :
    (onAccept s chain).rejections = [RejectCause.OverloadAction] ∧
    (onAccept s chain).state = s ∧
    (onAccept s chain).state.groups = s.groups ∧
    totalLinked (onAccept s chain).state = totalLinked s ∧
    numConnections (onAccept s chain).state = numConnections s := by
  have hs : (onAccept s chain).state = s := onAccept_state_rejected h
  refine ⟨?_, hs, by rw [hs], by rw [hs], by rw [hs]⟩
  simp [onAccept, h]

/-- Witness for C2 at a freshly created listener with limit 0: the limit is
already reached, the socket is rejected once with the overload cause, and
the state is unchanged. -/
theorem onAccept_rejects_when_limit_reached_witness :
    listenerConnectionLimitReached (initListener 0) = true ∧
    (onAccept (initListener 0) 7).rejections = [RejectCause.OverloadAction] ∧
    (onAccept (initListener 0) 7).state = initListener 0 :=
  ⟨by decide,
    (onAccept_rejects_when_limit_reached (initListener 0) 7 (by decide)).1,
    (onAccept_rejects_when_limit_reached (initListener 0) 7 (by decide)).2.1⟩

/-- Claim C3: the wrapper's `onEvent` calls `removeConnection` on the owning
listener exactly when the event is `LocalClose` or `RemoteClose` (after
which the wrapper is no longer linked in any group), and takes no action at
all for any other event kind. -/
theorem onEvent_close_is_sole_trigger (s : ListenerState) (w : Nat)
    (e : ConnectionEvent) :
    ((e = ConnectionEvent.LocalClose ∨ e = ConnectionEvent.RemoteClose) →
      onEvent s w e = removeConnection s w ∧
      linked (onEvent s w e) w = false) ∧
    (e ≠ ConnectionEvent.LocalClose → e ≠ ConnectionEvent.RemoteClose →
      onEvent s w e = s) := by
  constructor
  · intro h
    have he : onEvent s w e = removeConnection s w := by
      simp only [onEvent]
      rw [if_pos h]
    exact ⟨he, by rw [he]; exact linked_removeConnection_self s w⟩
  · intro h1 h2
    simp only [onEvent]
    rw [if_neg (not_or.mpr ⟨h1, h2⟩)]

/-- Witness for C3: at a concrete listener, a `LocalClose` event triggers
removal and leaves the wrapper unlinked, while a `Connected` event leaves
the state untouched. -/
theorem onEvent_close_is_sole_trigger_witness :
    (onEvent exampleListener 0 ConnectionEvent.LocalClose =
       removeConnection exampleListener 0 ∧
     linked (onEvent exampleListener 0 ConnectionEvent.LocalClose) 0 = false) ∧
    onEvent exampleListener 0 ConnectionEvent.Connected = exampleListener :=
  ⟨(onEvent_close_is_sole_trigger exampleListener 0
      ConnectionEvent.LocalClose).1 (Or.inl rfl),
   (onEvent_close_is_sole_trigger exampleListener 0
      ConnectionEvent.Connected).2 (by decide) (by decide)⟩

/-- Claim C4: `removeConnection`, called from within the wrapper's own
connection-event callback, synchronously detaches the wrapper from its
group's list (it is immediately unreachable), but never synchronously
destroys it: the wrapper's destructor has not run when `removeConnection`
returns; it is on the dispatcher's deferred-deletion queue, and its
destruction happens only when the dispatcher drains that queue after the
callback frame has returned. -/
theorem removeConnection_defers_destruction (s : ListenerState) (w : Nat)
    (hl : linked s w = true) (hd : w ∉ s.destroyedConnections) :
    linked (removeConnection s w) w = false ∧
    w ∉ (removeConnection s w).destroyedConnections ∧
    w ∈ (removeConnection s w).deferredConnections ∧
    w ∈ (clearDeferredDeleteList (removeConnection s w)).destroyedConnections := by
  refine ⟨linked_removeConnection_self s w, ?_, ?_, ?_⟩
  · rw [removeConnection_destroyedConnections]
    exact hd
  · rw [removeConnection_of_linked hl]
    show w ∈ s.deferredConnections ++ [w]
    exact List.mem_append.mpr (Or.inr (List.mem_singleton.mpr rfl))
  · obtain ⟨k1, _⟩ := clearDeferred_destroyed (removeConnection s w)
    rw [k1]
    refine List.mem_append.mpr (Or.inl (List.mem_append.mpr (Or.inr ?_)))
    rw [removeConnection_of_linked hl]
    show w ∈ s.deferredConnections ++ [w]
    exact List.mem_append.mpr (Or.inr (List.mem_singleton.mpr rfl))

/-- Witness for C4 at a listener with one linked wrapper: the wrapper is
detached at once, not yet destroyed, queued for deferred deletion, and
destroyed once the dispatcher drains the queue. -/
theorem removeConnection_defers_destruction_witness :
    linked (removeConnection exampleListener 0) 0 = false ∧
    0 ∉ (removeConnection exampleListener 0).destroyedConnections ∧
    0 ∈ (removeConnection exampleListener 0).deferredConnections ∧
    0 ∈ (clearDeferredDeleteList
          (removeConnection exampleListener 0)).destroyedConnections :=
  removeConnection_defers_destruction exampleListener 0 (by decide) (by decide)

/-- Claim C8: `updateListenerConfig` swaps the configuration reference used
for future admission decisions and leaves every already-admitted
connection, every existing group, the deferred-deletion queue and the
connection counter unchanged. -/
theorem updateListenerConfig_frame (s : ListenerState) (c : OpenConnections) :
    (updateListenerConfig s c).config = c ∧
    listenerConnectionLimitReached (updateListenerConfig s c) = !c.canCreate ∧
    (updateListenerConfig s c).groups = s.groups ∧
    numConnections (updateListenerConfig s c) = numConnections s ∧
    totalLinked (updateListenerConfig s c) = totalLinked s ∧
    (∀ w, linked (updateListenerConfig s c) w = linked s w) ∧
    (updateListenerConfig s c).deferredConnections = s.deferredConnections ∧
    (updateListenerConfig s c).deferredGroups = s.deferredGroups ∧
    (updateListenerConfig s c).destroyedConnections = s.destroyedConnections ∧
    (updateListenerConfig s c).destroyedGroups = s.destroyedGroups :=
  ⟨rfl, rfl, rfl, rfl, rfl, fun _ => rfl, rfl, rfl, rfl, rfl⟩

/-- Claim C9: the wrapper's high and low write-buffer watermark callbacks
perform no action and change no state at this layer. -/
theorem watermark_callbacks_are_noops (s : ListenerState) :
    onAboveWriteBufferHighWatermark s = s ∧
    onBelowWriteBufferLowWatermark s = s :=
  ⟨rfl, rfl⟩

/-- Claim C10: `decNumConnections` requires the counter to be strictly
positive; under that precondition the `ASSERT` holds and the decrement
neither underflows nor wraps (the result is exactly one less), while a
call with the counter at zero would wrap the unsigned 64-bit value to
2^64 - 1. -/
theorem decNumConnections_requires_positive_counter (s : ListenerState)
    (hlt : s.numListenerConnections < U64MOD) :
    (0 < s.numListenerConnections →
      decNumConnectionsAssert s ∧
      (decNumConnections s).numListenerConnections =
        s.numListenerConnections - 1 ∧
      (decNumConnections s).numListenerConnections <
        s.numListenerConnections) ∧
    (s.numListenerConnections = 0 →
      (decNumConnections s).numListenerConnections = U64MOD - 1) := by
  constructor
  · intro h0
    have hdec : (decNumConnections s).numListenerConnections =
        s.numListenerConnections - 1 := by
      show decWrap s.numListenerConnections = s.numListenerConnections - 1
      exact decWrap_of_pos h0 hlt
    refine ⟨h0, hdec, ?_⟩
    rw [hdec]
    omega
  · intro h0
    show decWrap s.numListenerConnections = U64MOD - 1
    rw [h0]
    exact decWrap_zero

/-- Witness for C10 at the example listener (counter 1): the assertion
holds and the decrement yields 0. -/
theorem decNumConnections_requires_positive_counter_witness :
    (0 < exampleListener.numListenerConnections →
      decNumConnectionsAssert exampleListener ∧
      (decNumConnections exampleListener).numListenerConnections =
        exampleListener.numListenerConnections - 1 ∧
      (decNumConnections exampleListener).numListenerConnections <
        exampleListener.numListenerConnections) ∧
    (exampleListener.numListenerConnections = 0 →
      (decNumConnections exampleListener).numListenerConnections =
        U64MOD - 1) :=
  decNumConnections_requires_positive_counter exampleListener (by decide)

/-- Claim C1: for every sequence of accept and close events processed on
one listener, the connection counter `num_listener_connections_` equals the
total number of wrappers currently linked across all of the listener's
groups at every quiescent point; moreover at any such point an admitted
accept increments the counter exactly once and the close of a linked
wrapper decrements it exactly once. -/
theorem connection_counter_matches_linked_wrappers (limit : Nat)
    (hlim : limit < U64MOD) (es : List Ev) :
    numConnections (run (initListener limit) es) =
      totalLinked (run (initListener limit) es) ∧
    (∀ chain,
      listenerConnectionLimitReached (run (initListener limit) es) = false →
      numConnections (processEvent (run (initListener limit) es)
          (Ev.accept chain)) =
        numConnections (run (initListener limit) es) + 1) ∧
    (∀ w, linked (run (initListener limit) es) w = true →
      numConnections (processEvent (run (initListener limit) es)
          (Ev.close w)) + 1 =
        numConnections (run (initListener limit) es)) := by
  have hInv : Inv (run (initListener limit) es) := (Inv.init hlim).run es
  refine ⟨hInv.counterEq, ?_, ?_⟩
  · intro chain h
    exact counter_delta_accept hInv chain h
  · intro w h
    exact counter_delta_close hInv h

/-- Witness for C1 with limit 2 and the event sequence accept, accept,
close 0: the counter equals the number of linked wrappers at the end. -/
theorem connection_counter_matches_linked_wrappers_witness :
    2 < U64MOD ∧
    numConnections (run (initListener 2) [Ev.accept 5, Ev.accept 5, Ev.close 0]) =
      totalLinked (run (initListener 2) [Ev.accept 5, Ev.accept 5, Ev.close 0]) :=
  ⟨by decide,
   (connection_counter_matches_linked_wrappers 2 (by decide)
     [Ev.accept 5, Ev.accept 5, Ev.close 0]).1⟩

/-- Claim C5: within one listener's lifetime,
`getOrCreateActiveConnections` returns the same group instance for every
repeated call with the same filter-chain identity and a distinct instance
for a different identity; the map key is the filter-chain object's
identity. -/
theorem getOrCreateActiveConnections_identity_keyed (s : ListenerState)
    (c c2 : Nat) (hwf : WFGroups s) (hne : c2 ≠ c) :
    (getOrCreateActiveConnections
        (getOrCreateActiveConnections s c).1 c).2 =
      (getOrCreateActiveConnections s c).2 ∧
    (getOrCreateActiveConnections
        (getOrCreateActiveConnections s c).1 c).1 =
      (getOrCreateActiveConnections s c).1 ∧
    (getOrCreateActiveConnections
        (getOrCreateActiveConnections s c).1 c2).2 ≠
      (getOrCreateActiveConnections s c).2 := by
  cases h : findGroup s.groups c with
  | some g =>
    obtain ⟨hmem, hchain⟩ := findGroup_some s.groups c g h
    rw [getOrCreate_of_found h]
    refine ⟨?_, ?_, ?_⟩
    · show (getOrCreateActiveConnections s c).2 = g.gid
      rw [getOrCreate_of_found h]
    · show (getOrCreateActiveConnections s c).1 = s
      rw [getOrCreate_of_found h]
    · show (getOrCreateActiveConnections s c2).2 ≠ g.gid
      cases h2 : findGroup s.groups c2 with
      | some g2 =>
        obtain ⟨hmem2, hchain2⟩ := findGroup_some s.groups c2 g2 h2
        rw [getOrCreate_of_found h2]
        show g2.gid ≠ g.gid
        intro heq
        have hg : g2 = g :=
          List.inj_on_of_nodup_map hwf.gidNodup hmem2 hmem heq
        rw [hg, hchain] at hchain2
        exact hne hchain2.symm
      | none =>
        rw [getOrCreate_of_not_found h2]
        show s.nextGid ≠ g.gid
        have := hwf.gidFresh g hmem
        omega
  | none =>
    rw [getOrCreate_of_not_found h]
    have hf1 : findGroup (insertGroup s c).groups c =
        some { gid := s.nextGid, chain := c, connections := [] } := by
      show findGroup (s.groups ++
        [{ gid := s.nextGid, chain := c, connections := [] }]) c = _
      rw [findGroup_append, h]
      simp [findGroup]
    refine ⟨?_, ?_, ?_⟩
    · show (getOrCreateActiveConnections (insertGroup s c) c).2 = s.nextGid
      rw [getOrCreate_of_found hf1]
    · show (getOrCreateActiveConnections (insertGroup s c) c).1 = insertGroup s c
      rw [getOrCreate_of_found hf1]
    · show (getOrCreateActiveConnections (insertGroup s c) c2).2 ≠ s.nextGid
      have hsing : findGroup
          [({ gid := s.nextGid, chain := c, connections := [] } :
            ActiveConnections)] c2 = none := by
        rw [findGroup_cons_miss (fun hc => hne hc.symm)]
        rfl
      cases h2 : findGroup s.groups c2 with
      | some g2 =>
        obtain ⟨hmem2, _⟩ := findGroup_some s.groups c2 g2 h2
        have hf2 : findGroup (insertGroup s c).groups c2 = some g2 := by
          show findGroup (s.groups ++
            [{ gid := s.nextGid, chain := c, connections := [] }]) c2 = _
          rw [findGroup_append, h2]
          rfl
        rw [getOrCreate_of_found hf2]
        show g2.gid ≠ s.nextGid
        have := hwf.gidFresh g2 hmem2
        omega
      | none =>
        have hf2 : findGroup (insertGroup s c).groups c2 = none := by
          show findGroup (s.groups ++
            [{ gid := s.nextGid, chain := c, connections := [] }]) c2 = _
          rw [findGroup_append, h2, hsing]
          rfl
        rw [getOrCreate_of_not_found hf2]
        show (insertGroup s c).nextGid ≠ s.nextGid
        show s.nextGid + 1 ≠ s.nextGid
        omega

/-- Witness for C5 at a listener holding one group for chain 3: repeated
lookup of chain 3 returns the same group without changing the state, and
lookup of chain 4 returns a different group. -/
theorem getOrCreateActiveConnections_identity_keyed_witness :
    (getOrCreateActiveConnections
        (getOrCreateActiveConnections exampleListener 3).1 3).2 =
      (getOrCreateActiveConnections exampleListener 3).2 ∧
    (getOrCreateActiveConnections
        (getOrCreateActiveConnections exampleListener 3).1 3).1 =
      (getOrCreateActiveConnections exampleListener 3).1 ∧
    (getOrCreateActiveConnections
        (getOrCreateActiveConnections exampleListener 3).1 4).2 ≠
      (getOrCreateActiveConnections exampleListener 3).2 :=
  getOrCreateActiveConnections_identity_keyed exampleListener 3 4
    ⟨by decide, by decide⟩ (by decide)

/-- Claim C6: `deferredRemoveFilterChains(chains)` schedules the group of
each listed chain that has one for deferred destruction, removing it from
the map, and returns before any destruction runs; when the dispatcher then
drains its queue the group and all its still-linked member connections are
destroyed, and a subsequent `getOrCreateActiveConnections` for the same
chain creates a fresh group. -/
theorem deferredRemoveFilterChains_destroys_group (s : ListenerState)
    (chains : List Nat) (c : Nat) (g : ActiveConnections) (hwf : WFGroups s)
    (hc : c ∈ chains) (hfind : findGroup s.groups c = some g) :
    (∀ g2 ∈ (deferredRemoveFilterChains s chains).groups, g2.chain ∉ chains) ∧
    g ∈ (deferredRemoveFilterChains s chains).deferredGroups ∧
    (deferredRemoveFilterChains s chains).destroyedConnections =
      s.destroyedConnections ∧
    (deferredRemoveFilterChains s chains).destroyedGroups =
      s.destroyedGroups ∧
    g.gid ∈ (clearDeferredDeleteList
        (deferredRemoveFilterChains s chains)).destroyedGroups ∧
    (∀ w ∈ g.connections,
      w ∈ (clearDeferredDeleteList
          (deferredRemoveFilterChains s chains)).destroyedConnections) ∧
    (getOrCreateActiveConnections
        (clearDeferredDeleteList (deferredRemoveFilterChains s chains)) c).2 ≠
      g.gid := by
  obtain ⟨hmem, hchain⟩ := findGroup_some s.groups c g hfind
  obtain ⟨k1, k2, k3, k4, k5, k6, k7⟩ :=
    clearDeferred_destroyed (deferredRemoveFilterChains s chains)
  have hgroups : (deferredRemoveFilterChains s chains).groups =
      s.groups.filter (fun g2 => !(chains.contains g2.chain)) := rfl
  have hdefG : (deferredRemoveFilterChains s chains).deferredGroups =
      s.deferredGroups ++
        s.groups.filter (fun g2 => chains.contains g2.chain) := rfl
  have hcontc : chains.contains c = true := List.elem_iff.mpr hc
  have hginf : g ∈ (deferredRemoveFilterChains s chains).deferredGroups := by
    rw [hdefG]
    refine List.mem_append.mpr (Or.inr ?_)
    refine List.mem_filter.mpr ⟨hmem, ?_⟩
    rw [hchain]
    exact hcontc
  refine ⟨?_, hginf, rfl, rfl, ?_, ?_, ?_⟩
  · intro g2 hg2 hmem2
    rw [hgroups] at hg2
    have hb := (List.mem_filter.mp hg2).2
    have hcont2 : chains.contains g2.chain = true := List.elem_iff.mpr hmem2
    rw [hcont2] at hb
    simp at hb
  · rw [k2]
    refine List.mem_append.mpr (Or.inr ?_)
    exact List.mem_map.mpr ⟨g, hginf, rfl⟩
  · intro w hw
    rw [k1]
    refine List.mem_append.mpr (Or.inr ?_)
    exact mem_flatLinked_of_mem hginf hw
  · have hnone : findGroup (clearDeferredDeleteList
        (deferredRemoveFilterChains s chains)).groups c = none := by
      rw [k3, hgroups]
      cases hf : findGroup (s.groups.filter
          (fun g2 => !(chains.contains g2.chain))) c with
      | none => rfl
      | some g2 =>
        obtain ⟨hm2, hc2⟩ := findGroup_some _ c g2 hf
        have hb := (List.mem_filter.mp hm2).2
        rw [hc2, hcontc] at hb
        simp at hb
    rw [getOrCreate_of_not_found hnone]
    show (clearDeferredDeleteList (deferredRemoveFilterChains s chains)).nextGid ≠
      g.gid
    rw [k4]
    show s.nextGid ≠ g.gid
    have := hwf.gidFresh g hmem
    omega

/-- Witness for C6: a two-chain drain on a listener with one non-empty
group for chain 3 (and no group for chain 9): the group for chain 3 is
unmapped and scheduled, nothing is destroyed before the deferred drain,
the drain destroys the group and its member wrapper 0, and a fresh group
is created afterwards. -/
theorem deferredRemoveFilterChains_destroys_group_witness :
    (∀ g2 ∈ (deferredRemoveFilterChains exampleListener [3, 9]).groups,
      g2.chain ∉ ([3, 9] : List Nat)) ∧
    ({ gid := 0, chain := 3, connections := [0] } : ActiveConnections) ∈
      (deferredRemoveFilterChains exampleListener [3, 9]).deferredGroups ∧
    (deferredRemoveFilterChains exampleListener [3, 9]).destroyedConnections =
      exampleListener.destroyedConnections ∧
    (deferredRemoveFilterChains exampleListener [3, 9]).destroyedGroups =
      exampleListener.destroyedGroups ∧
    (0 : Nat) ∈ (clearDeferredDeleteList
        (deferredRemoveFilterChains exampleListener [3, 9])).destroyedGroups ∧
    (∀ w ∈ ({ gid := 0, chain := 3, connections := [0] } :
        ActiveConnections).connections,
      w ∈ (clearDeferredDeleteList
          (deferredRemoveFilterChains exampleListener [3, 9])).destroyedConnections) ∧
    (getOrCreateActiveConnections
        (clearDeferredDeleteList
          (deferredRemoveFilterChains exampleListener [3, 9])) 3).2 ≠ 0 :=
  deferredRemoveFilterChains_destroys_group exampleListener [3, 9] 3
    { gid := 0, chain := 3, connections := [0] }
    ⟨by decide, by decide⟩ (by decide) (by decide)

/-! ### Balancing (C7) -/

lemma foldlMin_mem (rest : List BalancedHandler) :
    ∀ h : BalancedHandler,
      (rest.foldl (fun b h2 =>
        if h2.numConnections < b.numConnections then h2 else b) h) ∈
        h :: rest := by
  induction rest with
  | nil => intro h; exact List.mem_singleton.mpr rfl
  | cons a rest ih =>
    intro h
    simp only [List.foldl_cons]
    by_cases hc : a.numConnections < h.numConnections
    · rw [if_pos hc]
      have := ih a
      rcases List.mem_cons.mp this with heq | hm
      · rw [heq]
        exact List.mem_cons_of_mem _ (List.mem_cons_self _ _)
      · exact List.mem_cons_of_mem _ (List.mem_cons_of_mem _ hm)
    · rw [if_neg hc]
      have := ih h
      rcases List.mem_cons.mp this with heq | hm
      · rw [heq]
        exact List.mem_cons_self _ _
      · exact List.mem_cons_of_mem _ (List.mem_cons_of_mem _ hm)

lemma foldlMin_le (rest : List BalancedHandler) :
    ∀ h : BalancedHandler, ∀ h2 ∈ h :: rest,
      (rest.foldl (fun b h3 =>
        if h3.numConnections < b.numConnections then h3 else b)
          h).numConnections ≤ h2.numConnections := by
  induction rest with
  | nil =>
    intro h h2 hm
    rcases List.mem_cons.mp hm with rfl | hm2
    · simp
    · cases hm2
  | cons a rest ih =>
    intro h h2 hm
    simp only [List.foldl_cons]
    by_cases hc : a.numConnections < h.numConnections
    · rw [if_pos hc]
      rcases List.mem_cons.mp hm with heq | hm2
      · rw [heq]
        calc (rest.foldl _ a).numConnections ≤ a.numConnections :=
              ih a a (List.mem_cons_self _ _)
          _ ≤ h.numConnections := Nat.le_of_lt hc
      · rcases List.mem_cons.mp hm2 with heq2 | hm3
        · rw [heq2]
          exact ih a a (List.mem_cons_self _ _)
        · exact ih a h2 (List.mem_cons_of_mem _ hm3)
    · rw [if_neg hc]
      rcases List.mem_cons.mp hm with heq | hm2
      · rw [heq]
        exact ih h h (List.mem_cons_self _ _)
      · rcases List.mem_cons.mp hm2 with heq2 | hm3
        · rw [heq2]
          calc (rest.foldl _ h).numConnections ≤ h.numConnections :=
              ih h h (List.mem_cons_self _ _)
            _ ≤ a.numConnections := Nat.le_of_not_lt hc
        · exact ih h h2 (List.mem_cons_of_mem _ hm3)

lemma handOff_no_match (hs : List BalancedHandler) (t : Nat)
    (h : ∀ h2 ∈ hs, h2.hid ≠ t) : handOff hs t = hs := by
  induction hs with
  | nil => rfl
  | cons a hs ih =>
    simp only [handOff, List.map_cons]
    rw [if_neg (h a (List.mem_cons_self _ _))]
    have := ih (fun h2 hm => h h2 (List.mem_cons_of_mem _ hm))
    simp only [handOff] at this
    rw [this]

lemma handOff_split (pre post : List BalancedHandler) (h : BalancedHandler)
    (hpre : ∀ h2 ∈ pre, h2.hid ≠ h.hid)
    (hpost : ∀ h2 ∈ post, h2.hid ≠ h.hid) :
    handOff (pre ++ h :: post) h.hid =
      pre ++ { h with numConnections := incWrap h.numConnections } :: post := by
  have h1 := handOff_no_match pre h.hid hpre
  have h2 := handOff_no_match post h.hid hpost
  simp only [handOff] at h1 h2 ⊢
  rw [List.map_append, List.map_cons, h1, h2, if_pos rfl]

/-- Claim C7: when the balancing protocol hands off an accepted socket, the
chosen destination is a sibling handler reporting the lowest
`numConnections()` among those not already overloaded, and after the
hand-off exactly one handler's connection counter has increased by one:
the total over all handlers rises by exactly one, and every handler other
than the chosen one is left untouched. -/
theorem balancing_picks_least_loaded_and_increments_one
    (hs : List BalancedHandler)
    (hnd : (hs.map (fun h => h.hid)).Nodup)
    (hbound : ∀ h2 ∈ hs, h2.numConnections + 1 < U64MOD)
    (hex : ∃ h2 ∈ hs, h2.limitReached = false) :
    ∃ h, getBalancedHandlerByAddress hs = some h ∧ h ∈ hs ∧
      h.limitReached = false ∧
      (∀ h2 ∈ hs, h2.limitReached = false →
        h.numConnections ≤ h2.numConnections) ∧
      ((handOff hs h.hid).map (fun h2 => h2.numConnections)).sum =
        (hs.map (fun h2 => h2.numConnections)).sum + 1 ∧
      (∀ h2 ∈ hs, h2.hid ≠ h.hid → h2 ∈ handOff hs h.hid) := by
  obtain ⟨he, hem, hef⟩ := hex
  have hefmem : he ∈ hs.filter (fun h => !h.limitReached) :=
    List.mem_filter.mpr ⟨hem, by simp [hef]⟩
  cases hflt : hs.filter (fun h => !h.limitReached) with
  | nil =>
    rw [hflt] at hefmem
    cases hefmem
  | cons h0 rest =>
    refine ⟨rest.foldl (fun b h2 =>
      if h2.numConnections < b.numConnections then h2 else b) h0,
      ?_, ?_, ?_, ?_, ?_, ?_⟩
    · simp only [getBalancedHandlerByAddress, hflt]
    · have := foldlMin_mem rest h0
      rw [← hflt] at this
      exact List.mem_of_mem_filter this
    · have := foldlMin_mem rest h0
      rw [← hflt] at this
      have := (List.mem_filter.mp this).2
      simpa using this
    · intro h2 hm2 hf2
      have hmem2 : h2 ∈ h0 :: rest := by
        rw [← hflt]
        exact List.mem_filter.mpr ⟨hm2, by simp [hf2]⟩
      exact foldlMin_le rest h0 h2 hmem2
    · have hminmem : (rest.foldl (fun b h2 =>
          if h2.numConnections < b.numConnections then h2 else b) h0) ∈ hs := by
        have := foldlMin_mem rest h0
        rw [← hflt] at this
        exact List.mem_of_mem_filter this
      obtain ⟨pre, post, heq⟩ := List.append_of_mem hminmem
      have hnd2 := hnd
      rw [heq] at hnd2
      simp only [List.map_append, List.map_cons] at hnd2
      rw [List.nodup_append] at hnd2
      obtain ⟨hnp, hnc, hdisj⟩ := hnd2
      have hpre : ∀ h2 ∈ pre, h2.hid ≠ (rest.foldl (fun b h2 =>
          if h2.numConnections < b.numConnections then h2 else b) h0).hid := by
        intro h2 hm hne
        have : h2.hid ∈ pre.map (fun h => h.hid) :=
          List.mem_map.mpr ⟨h2, hm, rfl⟩
        have := hdisj this
        rw [hne] at this
        exact this (List.mem_cons_self _ _)
      have hpost : ∀ h2 ∈ post, h2.hid ≠ (rest.foldl (fun b h2 =>
          if h2.numConnections < b.numConnections then h2 else b) h0).hid := by
        intro h2 hm hne
        rw [List.nodup_cons] at hnc
        apply hnc.1
        rw [← hne]
        exact List.mem_map.mpr ⟨h2, hm, rfl⟩
      have hlt := hbound _ hminmem
      rw [heq, handOff_split pre post _ hpre hpost]
      simp only [List.map_append, List.map_cons, List.sum_append, List.sum_cons]
      rw [incWrap_of_lt hlt]
      omega
    · intro h2 hm2 hne2
      simp only [handOff]
      refine List.mem_map.mpr ⟨h2, hm2, ?_⟩
      rw [if_neg hne2]

/-- Witness for C7 with three sibling handlers of equal load 5, echoing the
spec's example: a least-loaded non-overloaded handler is chosen and the
hand-off raises the total connection count by exactly one. -/
theorem balancing_picks_least_loaded_and_increments_one_witness :
    ∃ h, getBalancedHandlerByAddress
        [{ hid := 0, numConnections := 5, limitReached := false },
         { hid := 1, numConnections := 5, limitReached := false },
         { hid := 2, numConnections := 5, limitReached := false }] = some h ∧
      h ∈ [({ hid := 0, numConnections := 5, limitReached := false } :
              BalancedHandler),
           { hid := 1, numConnections := 5, limitReached := false },
           { hid := 2, numConnections := 5, limitReached := false }] ∧
      h.limitReached = false ∧
      (∀ h2 ∈ [({ hid := 0, numConnections := 5, limitReached := false } :
              BalancedHandler),
           { hid := 1, numConnections := 5, limitReached := false },
           { hid := 2, numConnections := 5, limitReached := false }],
        h2.limitReached = false → h.numConnections ≤ h2.numConnections) ∧
      ((handOff
          [{ hid := 0, numConnections := 5, limitReached := false },
           { hid := 1, numConnections := 5, limitReached := false },
           { hid := 2, numConnections := 5, limitReached := false }]
          h.hid).map (fun h2 => h2.numConnections)).sum =
        (([({ hid := 0, numConnections := 5, limitReached := false } :
              BalancedHandler),
           { hid := 1, numConnections := 5, limitReached := false },
           { hid := 2, numConnections := 5, limitReached := false }]).map
          (fun h2 => h2.numConnections)).sum + 1 ∧
      (∀ h2 ∈ [({ hid := 0, numConnections := 5, limitReached := false } :
              BalancedHandler),
           { hid := 1, numConnections := 5, limitReached := false },
           { hid := 2, numConnections := 5, limitReached := false }],
        h2.hid ≠ h.hid →
        h2 ∈ handOff
          [{ hid := 0, numConnections := 5, limitReached := false },
           { hid := 1, numConnections := 5, limitReached := false },
           { hid := 2, numConnections := 5, limitReached := false }] h.hid) :=
  balancing_picks_least_loaded_and_increments_one
    [{ hid := 0, numConnections := 5, limitReached := false },
     { hid := 1, numConnections := 5, limitReached := false },
     { hid := 2, numConnections := 5, limitReached := false }]
    (by decide) (by decide) (by decide)

end Server
end Envoy
